import Mathlib

/-!
# DP100 wire codec

A shallow embedding of the frame codec of `dp100.go`: the checksum
`ModbusCrc`, the trailer writer `WithModbusCrc`, the encoder `serialize` and
the decoder `deserialize`, followed by theorems about them.

Conventions of the embedding:

* a Go `uint8` is a `Fin 256`; a `[]byte` is a `List Byte`;
* a Go `uint16` is a `Nat` below `65536`; the only operation of the source
  that can leave that range, `crc << 8`, is reduced `% 65536`;
* the package-level variable `DeviceAddress` is an explicit argument of
  `serialize`, with the source's initial value as the constant
  `DeviceAddress`;
* a Go `error` is an `Option Error`, `none` being `nil`; each constructor of
  `Error` carries the values that the source formats into the message;
* the line `fmt.Printf("buff=%v\n", buff)` of `deserialize` writes to
  standard output and takes no part in the returned value; `deserialize`
  below is the returned value, and `deserializeRun` is the whole body with
  the output streams as explicit state.
-/

namespace DP100

/-! ## Data model -/

/-- Go `uint8`. -/
abbrev Byte := Fin 256

/-- Conversion `uint8(n)` of a wider unsigned value: truncation to eight bits. -/
def uint8 (n : Nat) : Byte := ⟨n % 256, Nat.mod_lt n (by decide)⟩

/-- Source: `type CommandID uint8`. -/
abbrev CommandID := Byte

def DeviceInfo : CommandID := 16
def FirmwareInfo : CommandID := 17
def StartTransaction : CommandID := 18
def DataTransaction : CommandID := 19
def EndTransaction : CommandID := 20
def DeviceUpgrade : CommandID := 21
def BasicInfo : CommandID := 48
def BasicSet : CommandID := 53
def SystemInfo : CommandID := 64
def SystemSet : CommandID := 69
def ScanOut : CommandID := 80
def SerialOut : CommandID := 85
def Disconnect : CommandID := 128
def None : CommandID := 255

/-- Initial value of the package-level variable `DeviceAddress`. -/
def DeviceAddress : Byte := 251

/-- The errors built with `fmt.Errorf` in `serialize` and `deserialize`, one
constructor per call site, carrying the formatted arguments. -/
inductive Error where
  /-- Text `payload size=%d too big to fit in a byte` of `serialize`. -/
  | payloadTooBig (size : Nat)
  /-- Text `response is too small to contain even a header: %v`. -/
  | tooSmall (buff : List Byte)
  /-- Text `length byte %d indicates a frame size of at least %d, but buffer is only %d bytes`. -/
  | lengthTooShort (length : Byte) (expectedSize : Nat) (len : Nat)
  /-- Text `crc error: received %x computed %x`. -/
  | crc (receivedCRC : Nat) (computedCRC : Nat)
  deriving DecidableEq, Repr

/-! ## Checksum -/

/-- Body of the inner loop of `ModbusCrc` (source lines 44 to 49). -/
def crcShift (crc : Nat) : Nat :=
  if crc &&& 0x0001 ≠ 0 then
    (crc >>> 1) ^^^ 0xA001
  else
    crc >>> 1

/-- Inner loop `for j := 8; j != 0; j--` of `ModbusCrc`, started at `j`. -/
def crcBits : Nat → Nat → Nat
  | 0, crc => crc
  | j + 1, crc => crcBits j (crcShift crc)

/-- Body of the outer loop of `ModbusCrc`: `crc ^= uint16(data[i])` and then
the inner loop. -/
def crcByte (crc : Nat) (b : Byte) : Nat :=
  crcBits 8 (crc ^^^ b.val)

/-- Outer loop of `ModbusCrc`: the value of `crc` after `for i := range len(data)`. -/
def crcLoop (data : List Byte) : Nat :=
  data.foldl crcByte 0xFFFF

/-- Source: `func ModbusCrc(data []byte) uint16`. -/
def ModbusCrc (data : List Byte) : Nat :=
  let crc := crcLoop data
  ((crc <<< 8) % 65536) ||| (crc >>> 8)

/-- Source: `func WithModbusCrc(data []byte) []byte`. -/
def WithModbusCrc (data : List Byte) : List Byte :=
  let crc := ModbusCrc data
  data ++ [uint8 crc, uint8 (crc >>> 8)]

/-! ## Encoder and decoder -/

/-- Source: `func serialize(cmdID CommandID, payload []byte) ([]byte, error)`,
with the package-level `DeviceAddress` as first argument. -/
def serialize (deviceAddress : Byte) (cmdID : CommandID) (payload : List Byte) :
    List Byte × Option Error :=
  let payloadLen := payload.length
  if payloadLen > 255 then
    ([], some (Error.payloadTooBig payload.length))
  else
    let featureReport : List Byte := [deviceAddress, cmdID, 0, uint8 payloadLen]
    let featureReport := featureReport ++ payload
    let featureReport := WithModbusCrc featureReport
    (featureReport, none)

/-- Source: `func deserialize(buff []byte) error`. The index expressions are
in range wherever they are reached, so the default of `getD` is never used. -/
def deserialize (buff : List Byte) : Option Error :=
  let headerSize := 6
  if buff.length < headerSize then
    some (Error.tooSmall buff)
  else
    let length := buff.getD 3 0
    let expectedSize := headerSize + length.val
    if buff.length < expectedSize then
      some (Error.lengthTooShort length expectedSize buff.length)
    else
      let buff := buff.take expectedSize
      let computedCRC := ModbusCrc (buff.take (expectedSize - 2))
      let receivedCRC :=
        ((buff.getD (expectedSize - 2) 0).val <<< 8) ||| (buff.getD (expectedSize - 1) 0).val
      if computedCRC ≠ receivedCRC then
        some (Error.crc receivedCRC computedCRC)
      else
        none

/-- Value of `featureReport` in `serialize` after `append(featureReport, payload...)`
and before the call of `WithModbusCrc`: the four header bytes and the payload. -/
def frameBody (deviceAddress : Byte) (cmdID : CommandID) (payload : List Byte) : List Byte :=
  [deviceAddress, cmdID, 0, uint8 payload.length] ++ payload

/-! ## Reference checksum

The CRC-16/MODBUS accumulator in the words of the specification, kept apart
from `ModbusCrc` so that the two can be compared. -/

/-- One bit step of the reference algorithm: the value `v` is replaced by
`(v >> 1) XOR 0xA001` when `v` is odd and by `v >> 1` otherwise. -/
def refBitStep (v : Nat) : Nat :=
  if v % 2 = 1 then Nat.xor (v / 2) 0xA001 else v / 2

/-- Reference treatment of one byte: the byte is XOR-ed into the low 8 bits of
the running value `v` (the high 8 bits are kept), then the bit step is applied
8 times. -/
def refByteStep (v : Nat) (b : Byte) : Nat :=
  refBitStep^[8] (v / 256 * 256 + Nat.xor (v % 256) b.val)

/-- Reference accumulator `Y` of the specification: start value `0xFFFF`, the
bytes taken in order. -/
def refCrc16 (data : List Byte) : Nat :=
  data.foldl refByteStep 0xFFFF

/-! ## Bit flips and parity -/

/-- Parity of the low `w` bits of `v`: `true` when an odd number of them is set. -/
def bitParity : Nat → Nat → Bool
  | 0, _ => false
  | w + 1, v => xor (v.testBit w) (bitParity w v)

/-- Parity of all the bits of a byte sequence. -/
def dataParity (data : List Byte) : Bool :=
  data.foldl (fun acc b => xor acc (bitParity 16 b.val)) false

/-- The byte sequence `data` with one bit inverted: bit `i % 8` of the byte at
index `i / 8`. Out of range, the sequence is returned unchanged. -/
def flipBit (data : List Byte) (i : Nat) : List Byte :=
  data.set (i / 8) (uint8 ((data.getD (i / 8) 0).val ^^^ (1 <<< (i % 8))))

/-- The byte sequence `f` with its last two bytes exchanged. -/
def swapLastTwo (f : List Byte) : List Byte :=
  f.take (f.length - 2) ++ [f.getD (f.length - 1) 0, f.getD (f.length - 2) 0]

/-! ## Output of the process -/

/-- The output streams of the process as explicit state: the texts written so far to
standard output and to standard error, oldest first. -/
structure Output where
  /-- Texts written to standard output. -/
  stdout : List String
  /-- Texts written to standard error. -/
  stderr : List String
  deriving DecidableEq, Repr

/-- Text that `fmt` produces for a `[]byte` under the verb `%v`: the decimal values of
the bytes, separated by one blank, between square brackets. -/
def formatBytes (buff : List Byte) : String :=
  "[" ++ String.intercalate " " (buff.map fun b => toString b.val) ++ "]"

/-- Source: `func deserialize(buff []byte) error`, statement by statement, with the
output streams as state. The first statement, `fmt.Printf("buff=%v\n", buff)`, writes one
text to standard output; the `fmt.Errorf` calls build error values and write nothing. -/
def deserializeRun (buff : List Byte) (out : Output) : Option Error × Output :=
  let out := Output.mk (out.stdout ++ ["buff=" ++ formatBytes buff ++ "\n"]) out.stderr
  let headerSize := 6
  if buff.length < headerSize then
    (some (Error.tooSmall buff), out)
  else
    let length := buff.getD 3 0
    let expectedSize := headerSize + length.val
    if buff.length < expectedSize then
      (some (Error.lengthTooShort length expectedSize buff.length), out)
    else
      let buff := buff.take expectedSize
      let computedCRC := ModbusCrc (buff.take (expectedSize - 2))
      let receivedCRC :=
        ((buff.getD (expectedSize - 2) 0).val <<< 8) ||| (buff.getD (expectedSize - 1) 0).val
      if computedCRC ≠ receivedCRC then
        (some (Error.crc receivedCRC computedCRC), out)
      else
        (none, out)

/-! ## Range of the checksum -/

theorem crcShift_lt {crc : Nat} (h : crc < 65536) : crcShift crc < 65536 := by
  unfold crcShift
  have h1 : crc >>> 1 < 65536 := by
    rw [Nat.shiftRight_eq_div_pow]; omega
  split
  · exact Nat.xor_lt_two_pow (n := 16) h1 (by decide)
  · exact h1

theorem crcBits_lt (j : Nat) {crc : Nat} (h : crc < 65536) : crcBits j crc < 65536 := by
  induction j generalizing crc with
  | zero => simpa [crcBits] using h
  | succ j ih => simpa [crcBits] using ih (crcShift_lt h)

theorem crcByte_lt {crc : Nat} (b : Byte) (h : crc < 65536) : crcByte crc b < 65536 := by
  unfold crcByte
  apply crcBits_lt
  exact Nat.xor_lt_two_pow (n := 16) h (by have := b.isLt; omega)

theorem foldl_crcByte_lt (data : List Byte) {crc : Nat} (h : crc < 65536) :
    data.foldl crcByte crc < 65536 := by
  induction data generalizing crc with
  | nil => simpa using h
  | cons b rest ih => simpa using ih (crcByte_lt b h)

theorem crcLoop_lt (data : List Byte) : crcLoop data < 65536 :=
  foldl_crcByte_lt data (by decide)

theorem swap_eq {crc : Nat} (h : crc < 65536) :
    ((crc <<< 8) % 65536) ||| (crc >>> 8) = (crc % 256) * 256 + crc / 256 := by
  have h1 : (crc <<< 8) % 65536 = 2 ^ 8 * (crc % 256) := by
    rw [Nat.shiftLeft_eq]; omega
  have h2 : crc >>> 8 = crc / 256 := by
    rw [Nat.shiftRight_eq_div_pow]
  have h3 : crc / 256 < 2 ^ 8 := by omega
  rw [h1, h2, ← Nat.mul_add_lt_is_or h3]
  omega

theorem ModbusCrc_eq (data : List Byte) :
    ModbusCrc data = (crcLoop data % 256) * 256 + crcLoop data / 256 := by
  unfold ModbusCrc
  exact swap_eq (crcLoop_lt data)

theorem ModbusCrc_lt (data : List Byte) : ModbusCrc data < 65536 := by
  have := crcLoop_lt data
  rw [ModbusCrc_eq]; omega

/-! ## Parity of the checksum -/

theorem bitParity_xor (w a b : Nat) :
    bitParity w (a ^^^ b) = xor (bitParity w a) (bitParity w b) := by
  induction w with
  | zero => simp [bitParity]
  | succ w ih =>
    simp only [bitParity, ih, Nat.testBit_xor]
    cases a.testBit w <;> cases b.testBit w <;> cases bitParity w a <;> cases bitParity w b <;> rfl

theorem bitParity_shiftRight_one (w v : Nat) :
    bitParity w (v >>> 1) = xor (bitParity (w + 1) v) (v.testBit 0) := by
  induction w with
  | zero => simp [bitParity]
  | succ w ih =>
    rw [bitParity, ih, Nat.testBit_shiftRight, bitParity, bitParity, bitParity, Nat.add_comm 1 w]
    cases v.testBit (w + 1) <;> cases v.testBit w <;> cases bitParity w v <;> cases v.testBit 0 <;> rfl

theorem bitParity_shiftRight_one_of_lt {v : Nat} (h : v < 65536) :
    bitParity 16 (v >>> 1) = xor (bitParity 16 v) (v.testBit 0) := by
  rw [bitParity_shiftRight_one, bitParity, Nat.testBit_lt_two_pow (i := 16) h]
  simp

theorem bitParity_crcShift {crc : Nat} (h : crc < 65536) :
    bitParity 16 (crcShift crc) = bitParity 16 crc := by
  unfold crcShift
  rw [Nat.and_one_is_mod]
  split
  · next hodd =>
    have h0 : crc.testBit 0 = true := by
      rw [Nat.testBit_zero]; simp; omega
    rw [bitParity_xor, bitParity_shiftRight_one_of_lt h, h0]
    have : bitParity 16 0xA001 = true := by decide
    rw [this]; cases bitParity 16 crc <;> rfl
  · next hev =>
    have h0 : crc.testBit 0 = false := by
      rw [Nat.testBit_zero]; simp; omega
    rw [bitParity_shiftRight_one_of_lt h, h0]; simp

theorem bitParity_crcBits (j : Nat) {crc : Nat} (h : crc < 65536) :
    bitParity 16 (crcBits j crc) = bitParity 16 crc := by
  induction j generalizing crc with
  | zero => simp [crcBits]
  | succ j ih => rw [crcBits, ih (crcShift_lt h), bitParity_crcShift h]

theorem bitParity_crcByte {crc : Nat} (b : Byte) (h : crc < 65536) :
    bitParity 16 (crcByte crc b) = xor (bitParity 16 crc) (bitParity 16 b.val) := by
  unfold crcByte
  rw [bitParity_crcBits, bitParity_xor]
  exact Nat.xor_lt_two_pow (n := 16) h (by have := b.isLt; omega)

theorem bitParity_foldl_crcByte (data : List Byte) {crc : Nat} (h : crc < 65536) (acc : Bool) :
    xor acc (bitParity 16 (data.foldl crcByte crc)) =
      data.foldl (fun acc b => xor acc (bitParity 16 b.val)) (xor acc (bitParity 16 crc)) := by
  induction data generalizing crc acc with
  | nil => simp
  | cons b rest ih =>
    simp only [List.foldl_cons]
    rw [ih (crcByte_lt b h), bitParity_crcByte b h, Bool.xor_assoc]

theorem bitParity_crcLoop (data : List Byte) :
    bitParity 16 (crcLoop data) = dataParity data := by
  have := @bitParity_foldl_crcByte data 0xFFFF (by decide) false
  have h0 : bitParity 16 0xFFFF = false := by decide
  simpa [crcLoop, dataParity, h0] using this

theorem bitParity_low (hi : Nat) {lo : Nat} (hlo : lo < 2 ^ 8) (w : Nat) (hw : w ≤ 8) :
    bitParity w (2 ^ 8 * hi + lo) = bitParity w lo := by
  induction w with
  | zero => rfl
  | succ w ih =>
    rw [bitParity, bitParity, ih (by omega), Nat.testBit_mul_pow_two_add hi hlo, if_pos (by omega)]

theorem bitParity_high (hi : Nat) {lo : Nat} (hlo : lo < 2 ^ 8) (w : Nat) :
    bitParity (8 + w) (2 ^ 8 * hi + lo) = xor (bitParity w hi) (bitParity 8 lo) := by
  induction w with
  | zero => simpa [bitParity] using bitParity_low hi hlo 8 (Nat.le_refl 8)
  | succ w ih =>
    have e1 : bitParity (8 + (w + 1)) (2 ^ 8 * hi + lo) =
        xor ((2 ^ 8 * hi + lo).testBit (8 + w)) (bitParity (8 + w) (2 ^ 8 * hi + lo)) := rfl
    have e2 : bitParity (w + 1) hi = xor (hi.testBit w) (bitParity w hi) := rfl
    rw [e1, e2, ih, Nat.testBit_mul_pow_two_add hi hlo, if_neg (by omega),
      Nat.add_sub_cancel_left, Bool.xor_assoc]

theorem bitParity_swap {v : Nat} (h : v < 65536) :
    bitParity 16 (((v <<< 8) % 65536) ||| (v >>> 8)) = bitParity 16 v := by
  rw [swap_eq h]
  have hlo : v / 256 < 2 ^ 8 := by omega
  have hlo2 : v % 256 < 2 ^ 8 := by omega
  have e1 : v % 256 * 256 + v / 256 = 2 ^ 8 * (v % 256) + v / 256 := by omega
  have e2 : v = 2 ^ 8 * (v / 256) + v % 256 := by omega
  have s1 := bitParity_high (v % 256) hlo 8
  have s2 := bitParity_high (v / 256) hlo2 8
  rw [← e1] at s1
  rw [← e2] at s2
  have s1' : bitParity 16 (v % 256 * 256 + v / 256) =
      xor (bitParity 8 (v % 256)) (bitParity 8 (v / 256)) := s1
  have s2' : bitParity 16 v = xor (bitParity 8 (v / 256)) (bitParity 8 (v % 256)) := s2
  rw [s1', s2', Bool.xor_comm]

theorem bitParity_ModbusCrc (data : List Byte) :
    bitParity 16 (ModbusCrc data) = dataParity data := by
  unfold ModbusCrc
  rw [bitParity_swap (crcLoop_lt data), bitParity_crcLoop]

theorem bitParity_flipByte (b : Byte) {k : Nat} (hk : k < 8) :
    bitParity 16 (uint8 (b.val ^^^ (1 <<< k))).val = !bitParity 16 b.val := by
  have hb := b.isLt
  have h1 : 1 <<< k < 2 ^ 8 := by
    rw [Nat.shiftLeft_eq, Nat.one_mul]; exact Nat.pow_lt_pow_right (by decide) hk
  have h2 : b.val ^^^ (1 <<< k) < 2 ^ 8 := Nat.xor_lt_two_pow (by omega) h1
  have h3 : (uint8 (b.val ^^^ (1 <<< k))).val = b.val ^^^ (1 <<< k) := by
    simp only [uint8]; omega
  have h4 : bitParity 16 (1 <<< k) = true := by
    interval_cases k <;> decide
  rw [h3, bitParity_xor, h4]; cases bitParity 16 b.val <;> rfl

theorem foldl_parity_not (data : List Byte) (acc : Bool) :
    data.foldl (fun acc b => xor acc (bitParity 16 b.val)) (!acc) =
      !data.foldl (fun acc b => xor acc (bitParity 16 b.val)) acc := by
  induction data generalizing acc with
  | nil => rfl
  | cons b rest ih =>
    simp only [List.foldl_cons]
    rw [← ih]; congr 1; cases acc <;> cases bitParity 16 b.val <;> rfl

theorem foldl_parity_set (data : List Byte) (k : Nat) (b : Byte) (acc : Bool)
    (hk : k < data.length) (hb : bitParity 16 b.val = !bitParity 16 (data.getD k 0).val) :
    (data.set k b).foldl (fun acc b => xor acc (bitParity 16 b.val)) acc =
      !data.foldl (fun acc b => xor acc (bitParity 16 b.val)) acc := by
  induction data generalizing k acc with
  | nil => simp at hk
  | cons a rest ih =>
    cases k with
    | zero =>
      simp only [List.set_cons_zero, List.foldl_cons]
      simp only [List.getD_cons_zero] at hb
      rw [hb, ← foldl_parity_not]; congr 1; cases acc <;> cases bitParity 16 a.val <;> rfl
    | succ k =>
      simp only [List.set_cons_succ, List.foldl_cons]
      simp only [List.getD_cons_succ] at hb
      exact ih k _ (by simpa using hk) hb

theorem dataParity_flipBit (data : List Byte) {i : Nat} (hi : i < 8 * data.length) :
    dataParity (flipBit data i) = !dataParity data := by
  unfold dataParity flipBit
  exact foldl_parity_set data (i / 8) _ false (by omega)
    (bitParity_flipByte _ (Nat.mod_lt i (by decide)))

theorem ModbusCrc_flipBit_ne (data : List Byte) {i : Nat} (hi : i < 8 * data.length) :
    ModbusCrc (flipBit data i) ≠ ModbusCrc data := by
  intro h
  have h1 := bitParity_ModbusCrc (flipBit data i)
  rw [h, bitParity_ModbusCrc, dataParity_flipBit data hi] at h1
  cases hd : dataParity data <;> simp [hd] at h1

/-! ## The decoder past its length checks -/

theorem shl_or_eq (x y : Byte) : (x.val <<< 8) ||| y.val = x.val * 256 + y.val := by
  have hy : y.val < 2 ^ 8 := y.isLt
  calc (x.val <<< 8) ||| y.val = 2 ^ 8 * x.val ||| y.val := by
        rw [Nat.shiftLeft_eq, Nat.mul_comm]
    _ = 2 ^ 8 * x.val + y.val := (Nat.mul_add_lt_is_or hy x.val).symm
    _ = x.val * 256 + y.val := by omega

theorem getD_take_of_lt (l : List Byte) {i n : Nat} (h : i < n) :
    (l.take n).getD i 0 = l.getD i 0 := by
  simp [List.getD_eq_getElem?_getD, List.getElem?_take, h]

theorem deserialize_of_le (buff : List Byte) (hlen : 6 + (buff.getD 3 0).val ≤ buff.length) :
    deserialize buff =
      if ModbusCrc (buff.take (4 + (buff.getD 3 0).val)) ≠
          (buff.getD (4 + (buff.getD 3 0).val) 0).val * 256 +
            (buff.getD (5 + (buff.getD 3 0).val) 0).val then
        some (Error.crc
          ((buff.getD (4 + (buff.getD 3 0).val) 0).val * 256 +
            (buff.getD (5 + (buff.getD 3 0).val) 0).val)
          (ModbusCrc (buff.take (4 + (buff.getD 3 0).val))))
      else none := by
  have h6 : ¬ buff.length < 6 := by omega
  have hL : ¬ buff.length < 6 + (buff.getD 3 0).val := by omega
  have e1 : 6 + (buff.getD 3 0).val - 2 = 4 + (buff.getD 3 0).val := by omega
  have e2 : 6 + (buff.getD 3 0).val - 1 = 5 + (buff.getD 3 0).val := by omega
  simp only [deserialize, if_neg h6, if_neg hL, e1, e2, shl_or_eq, List.take_take]
  rw [getD_take_of_lt buff (by omega : 4 + (buff.getD 3 0).val < 6 + (buff.getD 3 0).val),
    getD_take_of_lt buff (by omega : 5 + (buff.getD 3 0).val < 6 + (buff.getD 3 0).val),
    Nat.min_eq_left (by omega : 4 + (buff.getD 3 0).val ≤ 6 + (buff.getD 3 0).val)]

theorem deserialize_of_lt (buff : List Byte) (h6 : 6 ≤ buff.length)
    (hL : buff.length < 6 + (buff.getD 3 0).val) :
    deserialize buff =
      some (Error.lengthTooShort (buff.getD 3 0) (6 + (buff.getD 3 0).val) buff.length) := by
  have h6' : ¬ buff.length < 6 := by omega
  simp only [deserialize, if_neg h6', if_pos hL]

/-! ## Encoder, reference checksum and corrupted frames -/

theorem uint8_val_of_lt {n : Nat} (h : n < 256) : (uint8 n).val = n := by
  simp only [uint8]; omega

theorem serialize_eq (addr : Byte) (cmd : CommandID) (payload : List Byte)
    (h : payload.length ≤ 255) :
    serialize addr cmd payload = (WithModbusCrc (frameBody addr cmd payload), none) := by
  have h1 : ¬ payload.length > 255 := by omega
  simp only [serialize, if_neg h1, frameBody]

theorem WithModbusCrc_val (data : List Byte) :
    (WithModbusCrc data).map Fin.val =
      data.map Fin.val ++ [ModbusCrc data % 256, ModbusCrc data / 256] := by
  have h := ModbusCrc_lt data
  have h1 : (uint8 (ModbusCrc data)).val = ModbusCrc data % 256 := rfl
  have h2 : (uint8 (ModbusCrc data >>> 8)).val = ModbusCrc data / 256 := by
    rw [Nat.shiftRight_eq_div_pow]; simp only [uint8]; omega
  simp only [WithModbusCrc, List.map_append, List.map_cons, List.map_nil, h1, h2]

theorem crcShift_eq_refBitStep (v : Nat) : crcShift v = refBitStep v := by
  unfold crcShift refBitStep
  rw [Nat.and_one_is_mod, Nat.shiftRight_eq_div_pow]
  have h2 : v % 2 = 0 ∨ v % 2 = 1 := by omega
  rcases h2 with h | h
  · simp [h]
  · simp [h]; rfl

theorem crcBits_eq_iterate (j v : Nat) : crcBits j v = refBitStep^[j] v := by
  induction j generalizing v with
  | zero => rfl
  | succ j ih => rw [crcBits, ih, crcShift_eq_refBitStep, Function.iterate_succ_apply]

theorem xor_low_byte (v : Nat) (b : Byte) :
    v ^^^ b.val = v / 256 * 256 + Nat.xor (v % 256) b.val := by
  have hb : b.val < 2 ^ 8 := b.isLt
  have hm : v % 256 < 2 ^ 8 := by omega
  have hx : Nat.xor (v % 256) b.val < 2 ^ 8 := Nat.xor_lt_two_pow hm hb
  have e : v / 256 * 256 + Nat.xor (v % 256) b.val =
      2 ^ 8 * (v / 256) + Nat.xor (v % 256) b.val := by omega
  have ev : v = 2 ^ 8 * (v / 256) + v % 256 := by omega
  rw [e]
  apply Nat.eq_of_testBit_eq
  intro i
  rw [Nat.testBit_xor, Nat.testBit_mul_pow_two_add _ hx]
  conv_lhs => rw [ev, Nat.testBit_mul_pow_two_add _ hm]
  by_cases hi : i < 8
  · simp only [if_pos hi]
    exact (Nat.testBit_xor (v % 256) b.val i).symm
  · simp only [if_neg hi]
    have hbi : b.val.testBit i = false :=
      Nat.testBit_lt_two_pow (Nat.lt_of_lt_of_le hb (Nat.pow_le_pow_right (by decide) (by omega)))
    rw [hbi]; simp

theorem crcByte_eq_refByteStep (v : Nat) (b : Byte) : crcByte v b = refByteStep v b := by
  rw [crcByte, refByteStep, crcBits_eq_iterate, xor_low_byte]

theorem crcLoop_eq_refCrc16 (data : List Byte) : crcLoop data = refCrc16 data := by
  have h : crcByte = refByteStep := funext fun v => funext fun b => crcByte_eq_refByteStep v b
  rw [crcLoop, refCrc16, h]

theorem deserialize_take (b : List Byte) (hL : 6 + (b.getD 3 0).val ≤ b.length) :
    deserialize (b.take (6 + (b.getD 3 0).val)) = deserialize b := by
  have h3 : (b.take (6 + (b.getD 3 0).val)).getD 3 0 = b.getD 3 0 :=
    getD_take_of_lt b (by omega)
  have hlen : (b.take (6 + (b.getD 3 0).val)).length = 6 + (b.getD 3 0).val := by
    rw [List.length_take]; omega
  rw [deserialize_of_le b hL, deserialize_of_le _ (by rw [h3, hlen]), h3,
    getD_take_of_lt b (by omega : 4 + (b.getD 3 0).val < 6 + (b.getD 3 0).val),
    getD_take_of_lt b (by omega : 5 + (b.getD 3 0).val < 6 + (b.getD 3 0).val),
    List.take_take,
    Nat.min_eq_left (by omega : 4 + (b.getD 3 0).val ≤ 6 + (b.getD 3 0).val)]

theorem deserialize_append_trailer (d : List Byte) (x y : Byte)
    (hd : d.length = 4 + (d.getD 3 0).val) :
    deserialize (d ++ [x, y]) =
      if ModbusCrc d ≠ x.val * 256 + y.val then
        some (Error.crc (x.val * 256 + y.val) (ModbusCrc d))
      else none := by
  have h3 : (d ++ [x, y]).getD 3 0 = d.getD 3 0 := List.getD_append d [x, y] 0 3 (by omega)
  have hlen : (d ++ [x, y]).length = 6 + (d.getD 3 0).val := by
    rw [List.length_append, hd]; simp only [List.length_cons, List.length_nil]; omega
  have hx : (d ++ [x, y]).getD (4 + (d.getD 3 0).val) 0 = x := by
    rw [List.getD_append_right d [x, y] 0 _ (by omega), ← hd, Nat.sub_self]; rfl
  have hy : (d ++ [x, y]).getD (5 + (d.getD 3 0).val) 0 = y := by
    rw [List.getD_append_right d [x, y] 0 _ (by omega),
      (by omega : 5 + (d.getD 3 0).val - d.length = 1)]; rfl
  rw [deserialize_of_le _ (by rw [h3, hlen]), h3, hx, hy, List.take_left' hd]

theorem length_flipBit (data : List Byte) (i : Nat) : (flipBit data i).length = data.length := by
  simp [flipBit]

theorem getD_flipBit_of_ne (data : List Byte) (i k : Nat) (h : i / 8 ≠ k) :
    (flipBit data i).getD k 0 = data.getD k 0 := by
  simp [flipBit, List.getD_eq_getElem?_getD, List.getElem?_set_ne h]

theorem flipBit_append (data tail : List Byte) (i : Nat) (h : i / 8 < data.length) :
    flipBit (data ++ tail) i = flipBit data i ++ tail := by
  unfold flipBit
  rw [List.set_append_left _ _ h, List.getD_append data tail 0 _ h]

theorem bitParity_swap_bytes {v : Nat} (h : v < 65536) :
    bitParity 16 (v % 256 * 256 + v / 256) = bitParity 16 v := by
  rw [← swap_eq h]; exact bitParity_swap h

theorem length_frameBody (addr : Byte) (cmd : CommandID) (payload : List Byte) :
    (frameBody addr cmd payload).length = 4 + payload.length := by
  simp [frameBody]; omega

theorem getD_three_frameBody (addr : Byte) (cmd : CommandID) (payload : List Byte) :
    (frameBody addr cmd payload).getD 3 0 = uint8 payload.length := by
  simp [frameBody]

theorem lt_xor_two_pow {n j : Nat} (h : n.testBit j = false) : n < n ^^^ 2 ^ j := by
  apply Nat.lt_of_testBit j h
  · rw [Nat.testBit_xor, h, Nat.testBit_two_pow]; simp
  · intro k hk
    rw [Nat.testBit_xor, Nat.testBit_two_pow]
    have : decide (j = k) = false := by simp; omega
    rw [this]; simp

/-! ## Round trip, accepted frames and byte order -/

theorem serialize_fst_eq (addr : Byte) (cmd : CommandID) (payload : List Byte)
    (h : payload.length ≤ 255) :
    (serialize addr cmd payload).1 =
      frameBody addr cmd payload ++
        [uint8 (ModbusCrc (frameBody addr cmd payload)),
          uint8 (ModbusCrc (frameBody addr cmd payload) >>> 8)] := by
  rw [serialize_eq addr cmd payload h]; rfl

theorem frameBody_header (addr : Byte) (cmd : CommandID) (payload : List Byte)
    (h : payload.length ≤ 255) :
    (frameBody addr cmd payload).length =
      4 + ((frameBody addr cmd payload).getD 3 0).val := by
  rw [getD_three_frameBody, uint8_val_of_lt (by omega), length_frameBody]

theorem uint8_shiftRight_val {c : Nat} (h : c < 65536) : (uint8 (c >>> 8)).val = c / 256 := by
  rw [Nat.shiftRight_eq_div_pow]; simp only [uint8]; omega

theorem deserialize_serialize_eq (addr : Byte) (cmd : CommandID) (payload : List Byte)
    (h : payload.length ≤ 255) :
    deserialize (serialize addr cmd payload).1 =
      if ModbusCrc (frameBody addr cmd payload) ≠
          ModbusCrc (frameBody addr cmd payload) % 256 * 256 +
            ModbusCrc (frameBody addr cmd payload) / 256 then
        some (Error.crc
          (ModbusCrc (frameBody addr cmd payload) % 256 * 256 +
            ModbusCrc (frameBody addr cmd payload) / 256)
          (ModbusCrc (frameBody addr cmd payload)))
      else none := by
  have hy := uint8_shiftRight_val (ModbusCrc_lt (frameBody addr cmd payload))
  have hx : (uint8 (ModbusCrc (frameBody addr cmd payload))).val =
      ModbusCrc (frameBody addr cmd payload) % 256 := rfl
  rw [serialize_fst_eq addr cmd payload h,
    deserialize_append_trailer _ _ _ (frameBody_header addr cmd payload h), hx, hy]

theorem swapLastTwo_append (d : List Byte) (x y : Byte) :
    swapLastTwo (d ++ [x, y]) = d ++ [y, x] := by
  have hlen : (d ++ [x, y]).length = d.length + 2 := by simp
  have hx : (d ++ [x, y]).getD d.length 0 = x := by
    rw [List.getD_append_right d [x, y] 0 _ (Nat.le_refl _), Nat.sub_self]; rfl
  have hy : (d ++ [x, y]).getD (d.length + 1) 0 = y := by
    rw [List.getD_append_right d [x, y] 0 _ (by omega),
      (by omega : d.length + 1 - d.length = 1)]; rfl
  unfold swapLastTwo
  rw [hlen, (by omega : d.length + 2 - 2 = d.length),
    (by omega : d.length + 2 - 1 = d.length + 1), hx, hy, List.take_left]

theorem deserialize_none_length (b : List Byte) (h : deserialize b = none) :
    6 + (b.getD 3 0).val ≤ b.length := by
  by_contra hlt
  by_cases h6 : b.length < 6
  · simp only [deserialize, if_pos h6] at h
    exact Option.noConfusion h
  · rw [deserialize_of_lt b (by omega) (by omega)] at h
    exact Option.noConfusion h

theorem deserialize_none_crc (b : List Byte) (h : deserialize b = none) :
    ModbusCrc (b.take (4 + (b.getD 3 0).val)) =
      (b.getD (4 + (b.getD 3 0).val) 0).val * 256 + (b.getD (5 + (b.getD 3 0).val) 0).val := by
  have hlen := deserialize_none_length b h
  rw [deserialize_of_le b hlen] at h
  by_contra hne
  rw [if_pos hne] at h
  exact Option.noConfusion h

theorem take_flipBit (b : List Byte) (i n : Nat) (h : i / 8 < n) :
    (flipBit b i).take n = flipBit (b.take n) i := by
  unfold flipBit
  rw [List.set_take, getD_take_of_lt b h]

theorem crcShift_two_mul (m : Nat) : crcShift (2 * m) = m := by
  unfold crcShift
  rw [Nat.and_one_is_mod, Nat.shiftRight_eq_div_pow]
  have h0 : 2 * m % 2 = 0 := by omega
  rw [h0]
  simp

theorem crcBits_two_pow_mul (j m : Nat) : crcBits j (2 ^ j * m) = m := by
  induction j generalizing m with
  | zero => simp [crcBits]
  | succ j ih =>
    have e : 2 ^ (j + 1) * m = 2 * (2 ^ j * m) := by rw [Nat.pow_succ]; ac_rfl
    rw [crcBits, e, crcShift_two_mul, ih]

theorem crcByte_low_byte {v : Nat} (x : Byte) (hx : x.val = v % 256) :
    crcByte v x = v / 256 := by
  have e : v ^^^ x.val = 2 ^ 8 * (v / 256) := by
    rw [xor_low_byte, hx]
    have h0 : Nat.xor (v % 256) (v % 256) = 0 := Nat.xor_self _
    rw [h0]; omega
  rw [crcByte, e, crcBits_two_pow_mul]

theorem crcByte_self (y : Byte) : crcByte y.val y = 0 := by
  have h0 : y.val ^^^ y.val = 0 := Nat.xor_self _
  rw [crcByte, h0]
  decide

theorem crcLoop_append_trailer (d : List Byte) (x y : Byte)
    (hx : x.val = crcLoop d % 256) (hy : y.val = crcLoop d / 256) :
    crcLoop (d ++ [x, y]) = 0 := by
  have h1 : crcLoop (d ++ [x, y]) = crcByte (crcByte (crcLoop d) x) y := by
    simp [crcLoop, List.foldl_append]
  rw [h1, crcByte_low_byte x hx, ← hy, crcByte_self]

theorem take_add_two (b : List Byte) (k : Nat) (h : k + 2 ≤ b.length) :
    b.take (k + 2) = b.take k ++ [b.getD k 0, b.getD (k + 1) 0] := by
  have h1 : b[k]? = some (b.getD k 0) := by
    rw [List.getD_eq_getElem?_getD, List.getElem?_eq_getElem (by omega)]; rfl
  have h2 : b[k + 1]? = some (b.getD (k + 1) 0) := by
    rw [List.getD_eq_getElem?_getD, List.getElem?_eq_getElem (by omega)]; rfl
  rw [(by omega : k + 2 = k + 1 + 1), List.take_succ, List.take_succ, h1, h2]
  simp

set_option maxRecDepth 100000 in
theorem crcBits_byte_ne_self : ∀ d < 256, d ≠ 0 → crcBits 8 d ≠ d := by
  decide

theorem shiftRight_one_xor (a b : Nat) : (a ^^^ b) >>> 1 = (a >>> 1) ^^^ (b >>> 1) := by
  apply Nat.eq_of_testBit_eq
  intro i
  simp only [Nat.testBit_shiftRight, Nat.testBit_xor]

theorem xor_mod_two (a b : Nat) : (a ^^^ b) % 2 = (a % 2 + b % 2) % 2 := by
  have h := Nat.testBit_xor a b 0
  simp only [Nat.testBit_zero] at h
  have ha : a % 2 = 0 ∨ a % 2 = 1 := by omega
  have hb : b % 2 = 0 ∨ b % 2 = 1 := by omega
  have hc : (a ^^^ b) % 2 = 0 ∨ (a ^^^ b) % 2 = 1 := by omega
  rcases ha with ha | ha <;> rcases hb with hb | hb <;> rcases hc with hc | hc <;>
    simp [ha, hb, hc] at h ⊢

theorem xor_xor_cancel (a b : Nat) : (a ^^^ b) ^^^ b = a := by
  rw [Nat.xor_assoc, Nat.xor_self, Nat.xor_zero]

theorem crcShift_xor (a b : Nat) : crcShift (a ^^^ b) = crcShift a ^^^ crcShift b := by
  unfold crcShift
  simp only [Nat.and_one_is_mod, shiftRight_one_xor, xor_mod_two]
  have ha : a % 2 = 0 ∨ a % 2 = 1 := by omega
  have hb : b % 2 = 0 ∨ b % 2 = 1 := by omega
  rcases ha with ha | ha <;> rcases hb with hb | hb <;> simp [ha, hb]
  · rw [Nat.xor_assoc]
  · rw [Nat.xor_assoc, Nat.xor_assoc, Nat.xor_comm 40961 (b >>> 1)]
  · apply Nat.eq_of_testBit_eq
    intro i
    simp only [Nat.testBit_xor]
    cases (a >>> 1).testBit i <;> cases (b >>> 1).testBit i <;> cases (40961).testBit i <;> rfl

theorem crcBits_xor (j a b : Nat) : crcBits j (a ^^^ b) = crcBits j a ^^^ crcBits j b := by
  induction j generalizing a b with
  | zero => rfl
  | succ j ih => rw [crcBits, crcBits, crcBits, crcShift_xor, ih]

theorem crcShift_eq_zero {v : Nat} (h : v < 65536) (h0 : crcShift v = 0) : v = 0 := by
  unfold crcShift at h0
  rw [Nat.and_one_is_mod, Nat.shiftRight_eq_div_pow] at h0
  split at h0
  · have h1 : v / 2 ^ 1 = 40961 := Nat.xor_eq_zero.mp h0
    omega
  · omega

theorem crcBits_eq_zero (j : Nat) {v : Nat} (h : v < 65536) (h0 : crcBits j v = 0) : v = 0 := by
  induction j generalizing v with
  | zero => exact h0
  | succ j ih =>
    rw [crcBits] at h0
    exact crcShift_eq_zero h (ih (crcShift_lt h) h0)

theorem crcBits_inj (j : Nat) {a b : Nat} (ha : a < 65536) (hb : b < 65536)
    (h : crcBits j a = crcBits j b) : a = b := by
  have hx : a ^^^ b < 2 ^ 16 := Nat.xor_lt_two_pow ha hb
  have h0 : crcBits j (a ^^^ b) = 0 := by
    rw [crcBits_xor, h, Nat.xor_self]
  exact Nat.xor_eq_zero.mp (crcBits_eq_zero j hx h0)

theorem byte_lt_65536 (x : Byte) : x.val < 65536 := by
  have := x.isLt; omega

theorem crcByte_inj (x : Byte) {a b : Nat} (ha : a < 65536) (hb : b < 65536)
    (h : crcByte a x = crcByte b x) : a = b := by
  unfold crcByte at h
  have hxa : a ^^^ x.val < 2 ^ 16 := Nat.xor_lt_two_pow ha (byte_lt_65536 x)
  have hxb : b ^^^ x.val < 2 ^ 16 := Nat.xor_lt_two_pow hb (byte_lt_65536 x)
  exact Nat.xor_left_inj.mp (crcBits_inj 8 hxa hxb h)

theorem foldl_crcByte_inj (s : List Byte) {a b : Nat} (ha : a < 65536) (hb : b < 65536)
    (h : s.foldl crcByte a = s.foldl crcByte b) : a = b := by
  induction s generalizing a b with
  | nil => exact h
  | cons x rest ih =>
    simp only [List.foldl_cons] at h
    exact crcByte_inj x ha hb (ih (crcByte_lt x ha) (crcByte_lt x hb) h)

theorem xor_rearrange (A B C x y : Nat) :
    (A ^^^ B ^^^ y) ^^^ (A ^^^ C ^^^ x) = (B ^^^ C) ^^^ (x ^^^ y) := by
  apply Nat.eq_of_testBit_eq
  intro i
  simp only [Nat.testBit_xor]
  cases A.testBit i <;> cases B.testBit i <;> cases C.testBit i <;> cases x.testBit i <;>
    cases y.testBit i <;> rfl

theorem crcByte_crcByte_comm {v : Nat} (hv : v < 65536) (x y : Byte)
    (h : crcByte (crcByte v x) y = crcByte (crcByte v y) x) : x = y := by
  by_contra hne
  have hx := x.isLt
  have hy := y.isLt
  have h1 : crcByte v x ^^^ y.val = crcByte v y ^^^ x.val := by
    unfold crcByte at h ⊢
    exact crcBits_inj 8
      (Nat.xor_lt_two_pow (n := 16)
        (crcBits_lt 8 (Nat.xor_lt_two_pow (n := 16) hv (byte_lt_65536 x))) (byte_lt_65536 y))
      (Nat.xor_lt_two_pow (n := 16)
        (crcBits_lt 8 (Nat.xor_lt_two_pow (n := 16) hv (byte_lt_65536 y))) (byte_lt_65536 x)) h
  unfold crcByte at h1
  rw [crcBits_xor, crcBits_xor] at h1
  have h2 : (crcBits 8 x.val ^^^ crcBits 8 y.val) ^^^ (x.val ^^^ y.val) = 0 := by
    rw [← xor_rearrange (crcBits 8 v), h1, Nat.xor_self]
  rw [← crcBits_xor] at h2
  have h3 : crcBits 8 (x.val ^^^ y.val) = x.val ^^^ y.val := Nat.xor_eq_zero.mp h2
  have hd : x.val ^^^ y.val < 2 ^ 8 := Nat.xor_lt_two_pow hx hy
  have hd0 : x.val ^^^ y.val ≠ 0 := fun h0 => hne (Fin.ext (Nat.xor_eq_zero.mp h0))
  exact crcBits_byte_ne_self _ hd hd0 h3

theorem ModbusCrc_inj {d1 d2 : List Byte} (h : ModbusCrc d1 = ModbusCrc d2) :
    crcLoop d1 = crcLoop d2 := by
  have h1 := crcLoop_lt d1
  have h2 := crcLoop_lt d2
  rw [ModbusCrc_eq, ModbusCrc_eq] at h
  omega

/-! ## Properties of the codec -/

set_option maxRecDepth 100000 in
/-- C1, at the failing input. The frame that `serialize` builds for `BasicInfo` with an empty
payload and `DeviceAddress = 251` is refused by `deserialize` with the crc error: the
trailer `15, 49` is read as `0x0F31` while the computed checksum is `0x310F`. -/
theorem deserialize_serialize_BasicInfo_crc_error :
    (serialize DeviceAddress BasicInfo []).2 = none ∧
    (serialize DeviceAddress BasicInfo []).1 = [251, 48, 0, 0, 15, 49] ∧
    deserialize (serialize DeviceAddress BasicInfo []).1 = some (Error.crc 0x0F31 0x310F) := by
  decide

/-- C2. Frame layout: for a payload of at most 255 bytes `serialize` returns, without
error, the bytes `[DeviceAddress, cmd, 0, len(payload)] ++ payload ++ [c mod 256, c div 256]`
with `c` the `ModbusCrc` of header and payload; the result is `len(payload) + 6` bytes long
and its byte 3 is `len(payload)`; `WithModbusCrc` appends the low and then the high byte of
`ModbusCrc` to any data. -/
theorem serialize_layout (addr : Byte) (cmd : CommandID) (payload : List Byte)
    (h : payload.length ≤ 255) :
    (serialize addr cmd payload).2 = none ∧
    (serialize addr cmd payload).1.map Fin.val =
      [addr.val, cmd.val, 0, payload.length] ++ payload.map Fin.val ++
        [ModbusCrc ([addr, cmd, 0, uint8 payload.length] ++ payload) % 256,
         ModbusCrc ([addr, cmd, 0, uint8 payload.length] ++ payload) / 256] ∧
    (serialize addr cmd payload).1.length = payload.length + 6 ∧
    ((serialize addr cmd payload).1.getD 3 0).val = payload.length ∧
    ∀ data : List Byte, (WithModbusCrc data).map Fin.val =
      data.map Fin.val ++ [ModbusCrc data % 256, ModbusCrc data / 256] := by
  have hl : (uint8 payload.length).val = payload.length := uint8_val_of_lt (by omega)
  rw [serialize_eq addr cmd payload h]
  refine ⟨rfl, ?_, ?_, ?_, WithModbusCrc_val⟩
  · rw [WithModbusCrc_val]
    simp [frameBody, hl]
  · simp [WithModbusCrc, frameBody]
  · simp [WithModbusCrc, frameBody, hl]

/-- Witness of C2: the layout at command `BasicSet` with a payload of two bytes. -/
theorem serialize_layout_witness :
    ([7, 9] : List Byte).length ≤ 255 ∧
    (serialize DeviceAddress BasicSet [7, 9]).2 = none ∧
    (serialize DeviceAddress BasicSet [7, 9]).1.map Fin.val =
      [DeviceAddress.val, BasicSet.val, 0, ([7, 9] : List Byte).length] ++
          ([7, 9] : List Byte).map Fin.val ++
        [ModbusCrc ([DeviceAddress, BasicSet, 0, uint8 ([7, 9] : List Byte).length] ++ [7, 9]) % 256,
         ModbusCrc ([DeviceAddress, BasicSet, 0, uint8 ([7, 9] : List Byte).length] ++ [7, 9]) / 256] ∧
    (serialize DeviceAddress BasicSet [7, 9]).1.length = ([7, 9] : List Byte).length + 6 ∧
    ((serialize DeviceAddress BasicSet [7, 9]).1.getD 3 0).val = ([7, 9] : List Byte).length ∧
    ∀ data : List Byte, (WithModbusCrc data).map Fin.val =
      data.map Fin.val ++ [ModbusCrc data % 256, ModbusCrc data / 256] :=
  ⟨by decide, serialize_layout DeviceAddress BasicSet [7, 9] (by decide)⟩

/-- C3. The encoder fails exactly on payloads longer than 255 bytes: `serialize` returns an
error if and only if `len(payload) > 255`, the error reports the payload size, and on
failure the returned byte slice is empty. -/
theorem serialize_error_iff (addr : Byte) (cmd : CommandID) (payload : List Byte) :
    ((serialize addr cmd payload).2 ≠ none ↔ 255 < payload.length) ∧
    ((serialize addr cmd payload).2 ≠ none →
      (serialize addr cmd payload).2 = some (Error.payloadTooBig payload.length) ∧
      (serialize addr cmd payload).1 = []) := by
  by_cases h : payload.length > 255
  · simp [serialize, h]
  · have h' : ¬ 255 < payload.length := h
    simp [serialize, h']

/-- Witness of C3: a payload of 256 bytes is refused with an empty slice, one of 255 bytes
is accepted. -/
theorem serialize_error_iff_witness :
    ((serialize DeviceAddress BasicInfo (List.replicate 256 0)).2 =
        some (Error.payloadTooBig (List.replicate 256 (0 : Byte)).length) ∧
      (serialize DeviceAddress BasicInfo (List.replicate 256 0)).1 = []) ∧
    ¬ (serialize DeviceAddress BasicInfo (List.replicate 255 0)).2 ≠ none :=
  ⟨(serialize_error_iff DeviceAddress BasicInfo (List.replicate 256 0)).2
      ((serialize_error_iff DeviceAddress BasicInfo (List.replicate 256 0)).1.mpr
        (by rw [List.length_replicate]; decide)),
   fun hne => absurd
      ((serialize_error_iff DeviceAddress BasicInfo (List.replicate 255 0)).1.mp hne)
      (by rw [List.length_replicate]; decide)⟩

set_option maxRecDepth 100000 in
/-- C4. `ModbusCrc` is the byte swap of the reference CRC-16/MODBUS accumulator `Y`
(start `0xFFFF`, each byte XOR-ed into the low 8 bits, then 8 bit steps with `0xA001`):
both are 16-bit values, the high byte of `ModbusCrc(data)` is the low byte of `Y` and its
low byte is the high byte of `Y`; for the ASCII bytes of `123456789`, `Y = 0x4B37` and
`ModbusCrc` returns `0x374B`. -/
theorem ModbusCrc_eq_swap_refCrc16 (data : List Byte) :
    refCrc16 data < 65536 ∧ ModbusCrc data < 65536 ∧
    ModbusCrc data / 256 = refCrc16 data % 256 ∧
    ModbusCrc data % 256 = refCrc16 data / 256 ∧
    refCrc16 [49, 50, 51, 52, 53, 54, 55, 56, 57] = 0x4B37 ∧
    ModbusCrc [49, 50, 51, 52, 53, 54, 55, 56, 57] = 0x374B := by
  have hY := crcLoop_lt data
  have hM := ModbusCrc_eq data
  rw [crcLoop_eq_refCrc16] at hY hM
  refine ⟨hY, ModbusCrc_lt data, ?_, ?_, by decide, by decide⟩
  · rw [hM]; omega
  · rw [hM]; omega

/-- C5. Decoder acceptance rule: on a buffer of at least 6 bytes that holds the `6 + L`
bytes its length byte `L = b[3]` announces, `deserialize` returns no error exactly when
`ModbusCrc` of the first `4 + L` bytes equals `b[4+L] * 256 + b[5+L]`, and returns the crc
error, with the received and the computed value, when the two differ. -/
theorem deserialize_accepts_iff (b : List Byte) (_h6 : 6 ≤ b.length)
    (hL : 6 + (b.getD 3 0).val ≤ b.length) :
    (deserialize b = none ↔
      ModbusCrc (b.take (4 + (b.getD 3 0).val)) =
        (b.getD (4 + (b.getD 3 0).val) 0).val * 256 + (b.getD (5 + (b.getD 3 0).val) 0).val) ∧
    (ModbusCrc (b.take (4 + (b.getD 3 0).val)) ≠
        (b.getD (4 + (b.getD 3 0).val) 0).val * 256 + (b.getD (5 + (b.getD 3 0).val) 0).val →
      deserialize b = some (Error.crc
        ((b.getD (4 + (b.getD 3 0).val) 0).val * 256 + (b.getD (5 + (b.getD 3 0).val) 0).val)
        (ModbusCrc (b.take (4 + (b.getD 3 0).val))))) := by
  rw [deserialize_of_le b hL]
  constructor
  · constructor
    · intro h
      by_contra hne
      rw [if_pos hne] at h
      exact Option.noConfusion h
    · intro h
      rw [if_neg (not_not.mpr h)]
  · intro hne
    rw [if_pos hne]

set_option maxRecDepth 100000 in
/-- Witness of C5: the six bytes `251, 48, 0, 0, 49, 15` satisfy the acceptance rule. -/
theorem deserialize_accepts_iff_witness :
    6 ≤ ([251, 48, 0, 0, 49, 15] : List Byte).length ∧
    6 + (([251, 48, 0, 0, 49, 15] : List Byte).getD 3 0).val ≤
      ([251, 48, 0, 0, 49, 15] : List Byte).length ∧
    (deserialize [251, 48, 0, 0, 49, 15] = none ↔
      ModbusCrc (([251, 48, 0, 0, 49, 15] : List Byte).take
          (4 + (([251, 48, 0, 0, 49, 15] : List Byte).getD 3 0).val)) =
        (([251, 48, 0, 0, 49, 15] : List Byte).getD
            (4 + (([251, 48, 0, 0, 49, 15] : List Byte).getD 3 0).val) 0).val * 256 +
          (([251, 48, 0, 0, 49, 15] : List Byte).getD
            (5 + (([251, 48, 0, 0, 49, 15] : List Byte).getD 3 0).val) 0).val) :=
  ⟨by decide, by decide,
   (deserialize_accepts_iff [251, 48, 0, 0, 49, 15] (by decide) (by decide)).1⟩

/-- C6. Truncation is rejected before any checksum is looked at: a buffer of fewer than 6
bytes gets the too-small error; a buffer of at least 6 bytes but fewer than `6 + b[3]` gets
the length error, whatever its other bytes are; a buffer of at least `6 + b[3]` bytes gets
neither of them: it is accepted or gets the crc error. -/
theorem deserialize_too_short (b : List Byte) :
    (b.length < 6 → deserialize b = some (Error.tooSmall b)) ∧
    (6 ≤ b.length → b.length < 6 + (b.getD 3 0).val →
      deserialize b =
        some (Error.lengthTooShort (b.getD 3 0) (6 + (b.getD 3 0).val) b.length)) ∧
    (6 + (b.getD 3 0).val ≤ b.length →
      deserialize b = none ∨ ∃ r c, deserialize b = some (Error.crc r c)) := by
  refine ⟨?_, ?_, ?_⟩
  · intro h
    simp only [deserialize, if_pos h]
  · intro h6 hL
    exact deserialize_of_lt b h6 hL
  · intro hL
    rw [deserialize_of_le b hL]
    split
    · exact Or.inr ⟨_, _, rfl⟩
    · exact Or.inl rfl

set_option maxRecDepth 100000 in
/-- Witness of C6: three bytes are too small, `251, 48, 0, 1, 15, 49` announces 7 bytes and
holds 6, `251, 48, 0, 0, 15, 49` holds what it announces. -/
theorem deserialize_too_short_witness :
    deserialize [1, 2, 3] = some (Error.tooSmall [1, 2, 3]) ∧
    deserialize [251, 48, 0, 1, 15, 49] =
      some (Error.lengthTooShort (([251, 48, 0, 1, 15, 49] : List Byte).getD 3 0)
        (6 + (([251, 48, 0, 1, 15, 49] : List Byte).getD 3 0).val)
        ([251, 48, 0, 1, 15, 49] : List Byte).length) ∧
    (deserialize [251, 48, 0, 0, 15, 49] = none ∨
      ∃ r c, deserialize [251, 48, 0, 0, 15, 49] = some (Error.crc r c)) :=
  ⟨(deserialize_too_short [1, 2, 3]).1 (by decide),
   (deserialize_too_short [251, 48, 0, 1, 15, 49]).2.1 (by decide) (by decide),
   (deserialize_too_short [251, 48, 0, 0, 15, 49]).2.2 (by decide)⟩

/-- C7. Trailing bytes are ignored: on a buffer of at least `6 + b[3]` bytes `deserialize`
returns what it returns on the first `6 + b[3]` bytes alone, and every buffer with the same
first `6 + b[3]` bytes gets the same result. -/
theorem deserialize_ignores_trailing (b : List Byte)
    (hL : 6 + (b.getD 3 0).val ≤ b.length) :
    deserialize (b.take (6 + (b.getD 3 0).val)) = deserialize b ∧
    ∀ b' : List Byte, b'.take (6 + (b.getD 3 0).val) = b.take (6 + (b.getD 3 0).val) →
      deserialize b' = deserialize b := by
  refine ⟨deserialize_take b hL, ?_⟩
  intro b' hb'
  have hlen : (b'.take (6 + (b.getD 3 0).val)).length = 6 + (b.getD 3 0).val := by
    rw [hb', List.length_take]; omega
  have hlen' : 6 + (b.getD 3 0).val ≤ b'.length := by
    rw [List.length_take] at hlen; omega
  have h3 : b'.getD 3 0 = b.getD 3 0 := by
    rw [← getD_take_of_lt b' (by omega : 3 < 6 + (b.getD 3 0).val), hb',
      getD_take_of_lt b (by omega)]
  have hL' : 6 + (b'.getD 3 0).val ≤ b'.length := by rw [h3]; exact hlen'
  rw [← deserialize_take b' hL', h3, hb', deserialize_take b hL]

set_option maxRecDepth 100000 in
/-- Witness of C7: the frame `251, 48, 0, 0, 49, 15` followed by two more bytes. -/
theorem deserialize_ignores_trailing_witness :
    6 + (([251, 48, 0, 0, 49, 15, 7, 9] : List Byte).getD 3 0).val ≤
      ([251, 48, 0, 0, 49, 15, 7, 9] : List Byte).length ∧
    deserialize (([251, 48, 0, 0, 49, 15, 7, 9] : List Byte).take
        (6 + (([251, 48, 0, 0, 49, 15, 7, 9] : List Byte).getD 3 0).val)) =
      deserialize [251, 48, 0, 0, 49, 15, 7, 9] ∧
    deserialize [251, 48, 0, 0, 49, 15] = deserialize [251, 48, 0, 0, 49, 15, 7, 9] :=
  ⟨by decide,
   (deserialize_ignores_trailing [251, 48, 0, 0, 49, 15, 7, 9] (by decide)).1,
   (deserialize_ignores_trailing [251, 48, 0, 0, 49, 15, 7, 9] (by decide)).2
      [251, 48, 0, 0, 49, 15] (by decide)⟩

/-- C8. `ModbusCrc` detects every single-bit error: inverting any one bit of a non-empty
byte sequence changes its checksum. -/
theorem ModbusCrc_detects_single_bit (data : List Byte) (i : Nat) (_hne : data ≠ [])
    (hi : i < 8 * data.length) :
    ModbusCrc (flipBit data i) ≠ ModbusCrc data :=
  ModbusCrc_flipBit_ne data hi

set_option maxRecDepth 100000 in
/-- Witness of C8: bit 5 of the first byte of `251, 48, 0, 0`. -/
theorem ModbusCrc_detects_single_bit_witness :
    ([251, 48, 0, 0] : List Byte) ≠ [] ∧ 5 < 8 * ([251, 48, 0, 0] : List Byte).length ∧
    ModbusCrc (flipBit [251, 48, 0, 0] 5) ≠ ModbusCrc [251, 48, 0, 0] :=
  ⟨by decide, by decide,
   ModbusCrc_detects_single_bit [251, 48, 0, 0] 5 (by decide) (by decide)⟩

set_option maxRecDepth 100000 in
/-- Counterexample to C9 as stated. Bit 0 of the length byte (header index 3) of the frame
of `BasicInfo` with an empty payload: the corrupted buffer `251, 48, 0, 1, 15, 49` gets the
length (too-short) error, not the crc error. Bit 1 of the length byte of the frame of
command 135 with payload `129, 41`: the corrupted buffer `251, 135, 0, 0, 129, 41, 192, 161`
is accepted. -/
theorem flipped_length_bit_not_crc_error :
    deserialize (flipBit (serialize DeviceAddress BasicInfo []).1 24) =
      some (Error.lengthTooShort 1 7 6) ∧
    (¬ ∃ r c, deserialize (flipBit (serialize DeviceAddress BasicInfo []).1 24) =
      some (Error.crc r c)) ∧
    deserialize (flipBit (serialize DeviceAddress 135 [129, 41]).1 25) = none := by
  have h : deserialize (flipBit (serialize DeviceAddress BasicInfo []).1 24) =
      some (Error.lengthTooShort 1 7 6) := by decide
  refine ⟨h, ?_, by decide⟩
  rintro ⟨r, c, hrc⟩
  rw [h] at hrc
  exact Error.noConfusion (Option.some.inj hrc)

/-- C9, amended. Corruption of an encoded frame: for a payload of at most 255 bytes,
inverting one bit of the address, command or sequence byte or of a payload byte of
`serialize(cmd, payload)` gives a buffer on which `deserialize` returns the crc error, with
the two trailer bytes as received value and the checksum of the corrupted bytes as computed
value; inverting a bit of the length byte that is 0 in `len(payload)` gives the length
(too-short) error instead. -/
theorem deserialize_flipBit_serialize (addr : Byte) (cmd : CommandID) (payload : List Byte)
    (hlen : payload.length ≤ 255) :
    (∀ i : Nat, i < 8 * (4 + payload.length) → i / 8 ≠ 3 →
      deserialize (flipBit (serialize addr cmd payload).1 i) =
        some (Error.crc
          (ModbusCrc (frameBody addr cmd payload) % 256 * 256 +
            ModbusCrc (frameBody addr cmd payload) / 256)
          (ModbusCrc (flipBit (frameBody addr cmd payload) i)))) ∧
    (∀ j : Nat, j < 8 → payload.length.testBit j = false →
      ∃ L n, deserialize (flipBit (serialize addr cmd payload).1 (24 + j)) =
        some (Error.lengthTooShort L n (payload.length + 6))) := by
  have hbody := length_frameBody addr cmd payload
  have hl : (uint8 payload.length).val = payload.length := uint8_val_of_lt (by omega)
  have hM := ModbusCrc_lt (frameBody addr cmd payload)
  have hx : (uint8 (ModbusCrc (frameBody addr cmd payload))).val =
      ModbusCrc (frameBody addr cmd payload) % 256 := rfl
  have hy : (uint8 (ModbusCrc (frameBody addr cmd payload) >>> 8)).val =
      ModbusCrc (frameBody addr cmd payload) / 256 := by
    rw [Nat.shiftRight_eq_div_pow]; simp only [uint8]; omega
  rw [serialize_eq addr cmd payload hlen]
  simp only [WithModbusCrc]
  constructor
  · intro i hi h3
    have hi8 : i / 8 < (frameBody addr cmd payload).length := by omega
    have hd : (flipBit (frameBody addr cmd payload) i).length =
        4 + ((flipBit (frameBody addr cmd payload) i).getD 3 0).val := by
      rw [length_flipBit, getD_flipBit_of_ne _ _ _ h3, getD_three_frameBody, hl, hbody]
    rw [flipBit_append _ _ _ hi8, deserialize_append_trailer _ _ _ hd, hx, hy]
    have hne : ModbusCrc (flipBit (frameBody addr cmd payload) i) ≠
        ModbusCrc (frameBody addr cmd payload) % 256 * 256 +
          ModbusCrc (frameBody addr cmd payload) / 256 := by
      intro h
      have h1 := bitParity_ModbusCrc (flipBit (frameBody addr cmd payload) i)
      rw [h, bitParity_swap_bytes hM, bitParity_ModbusCrc,
        dataParity_flipBit _ (by omega : i < 8 * (frameBody addr cmd payload).length)] at h1
      cases hp : dataParity (frameBody addr cmd payload) <;> simp [hp] at h1
    rw [if_pos hne]
  · intro j hj hbit
    have hi8 : (24 + j) / 8 < (frameBody addr cmd payload).length := by omega
    have e8 : (24 + j) / 8 = 3 := by omega
    have em : (24 + j) % 8 = j := by omega
    rw [flipBit_append _ _ _ hi8]
    have hlt := lt_xor_two_pow hbit
    have hx256 : payload.length ^^^ 2 ^ j < 2 ^ 8 :=
      Nat.xor_lt_two_pow (by omega) (Nat.pow_lt_pow_right (by decide) hj)
    have h3 : ((flipBit (frameBody addr cmd payload) (24 + j) ++
        [uint8 (ModbusCrc (frameBody addr cmd payload)),
          uint8 (ModbusCrc (frameBody addr cmd payload) >>> 8)]).getD 3 0).val =
        payload.length ^^^ 2 ^ j := by
      rw [List.getD_append _ _ 0 3 (by rw [length_flipBit]; omega)]
      unfold flipBit
      rw [e8, em, getD_three_frameBody, hl, Nat.one_shiftLeft,
        List.getD_eq_getElem?_getD, List.getElem?_set_eq_of_lt _ (by omega)]
      exact uint8_val_of_lt hx256
    have hlen' : (flipBit (frameBody addr cmd payload) (24 + j) ++
        [uint8 (ModbusCrc (frameBody addr cmd payload)),
          uint8 (ModbusCrc (frameBody addr cmd payload) >>> 8)]).length =
        payload.length + 6 := by
      rw [List.length_append, length_flipBit, hbody]; simp; omega
    have h6 := deserialize_of_lt (flipBit (frameBody addr cmd payload) (24 + j) ++
        [uint8 (ModbusCrc (frameBody addr cmd payload)),
          uint8 (ModbusCrc (frameBody addr cmd payload) >>> 8)])
      (by omega) (by omega)
    rw [hlen'] at h6
    exact ⟨_, _, h6⟩

set_option maxRecDepth 100000 in
/-- Witness of C9, amended: the frame of `BasicInfo` with an empty payload, with bit 5 of the
address byte inverted, and with bit 0 of the length byte inverted. -/
theorem deserialize_flipBit_serialize_witness :
    ([] : List Byte).length ≤ 255 ∧
    deserialize (flipBit (serialize DeviceAddress BasicInfo []).1 5) =
      some (Error.crc
        (ModbusCrc (frameBody DeviceAddress BasicInfo []) % 256 * 256 +
          ModbusCrc (frameBody DeviceAddress BasicInfo []) / 256)
        (ModbusCrc (flipBit (frameBody DeviceAddress BasicInfo []) 5))) ∧
    ∃ L n, deserialize (flipBit (serialize DeviceAddress BasicInfo []).1 (24 + 0)) =
      some (Error.lengthTooShort L n (([] : List Byte).length + 6)) :=
  ⟨by decide,
   (deserialize_flipBit_serialize DeviceAddress BasicInfo [] (by decide)).1 5
      (by decide) (by decide),
   (deserialize_flipBit_serialize DeviceAddress BasicInfo [] (by decide)).2 0
      (by decide) (by decide)⟩

set_option maxRecDepth 100000 in
/-- C10. Known-answer vector of the encoder: with `DeviceAddress = 251`, `serialize` of
`BasicInfo` (wire value 48) with an empty payload returns, without error, the bytes
`251, 48, 0, 0` followed by the low and the high byte of `ModbusCrc([251, 48, 0, 0])`; that
checksum is `0x310F` and the frame is `251, 48, 0, 0, 15, 49`. -/
theorem serialize_BasicInfo_known_answer :
    DeviceAddress.val = 251 ∧ BasicInfo.val = 48 ∧
    serialize DeviceAddress BasicInfo [] =
      ([251, 48, 0, 0, uint8 (ModbusCrc [251, 48, 0, 0] % 256),
        uint8 (ModbusCrc [251, 48, 0, 0] / 256)], none) ∧
    ModbusCrc [251, 48, 0, 0] = 0x310F ∧
    serialize DeviceAddress BasicInfo [] = ([251, 48, 0, 0, 15, 49], none) := by
  decide

set_option maxRecDepth 100000 in
/-- C11, on the code. For all bytes `X` and `Y`, `deserialize` accepts
`251, 48, 0, 0, X, Y` exactly when `X = 49` and `Y = 15`, and returns the crc error for
every other pair; `serialize` appends `15, 49` for `BasicInfo` with an empty payload, and
the buffer `251, 48, 0, 0, 15, 49` gets the crc error. -/
theorem deserialize_BasicInfo_trailer (X Y : Byte) :
    (serialize DeviceAddress BasicInfo []).1 = [251, 48, 0, 0, 15, 49] ∧
    (deserialize [251, 48, 0, 0, X, Y] = none ↔ X = 49 ∧ Y = 15) ∧
    (¬ (X = 49 ∧ Y = 15) →
      deserialize [251, 48, 0, 0, X, Y] = some (Error.crc (X.val * 256 + Y.val) 0x310F)) ∧
    deserialize [251, 48, 0, 0, 15, 49] = some (Error.crc 0x0F31 0x310F) := by
  have hc : ModbusCrc [251, 48, 0, 0] = 12559 := by decide
  have hd := deserialize_append_trailer [251, 48, 0, 0] X Y (by decide)
  rw [hc] at hd
  have hd' : deserialize [251, 48, 0, 0, X, Y] =
      if 12559 ≠ X.val * 256 + Y.val then some (Error.crc (X.val * 256 + Y.val) 12559)
      else none := hd
  have hX := X.isLt
  have hY := Y.isLt
  have hiff : (12559 = X.val * 256 + Y.val) ↔ (X = 49 ∧ Y = 15) := by
    constructor
    · intro h
      exact ⟨Fin.ext (by show X.val = 49; omega), Fin.ext (by show Y.val = 15; omega)⟩
    · rintro ⟨rfl, rfl⟩; rfl
  refine ⟨by decide, ?_, ?_, by decide⟩
  · rw [hd']
    constructor
    · intro h0
      by_contra hne
      rw [if_pos (fun h => hne (hiff.mp h))] at h0
      exact Option.noConfusion h0
    · intro h
      rw [if_neg (not_not.mpr (hiff.mpr h))]
  · intro hne
    rw [hd', if_pos (fun h => hne (hiff.mp h))]

/-- C12. `ModbusCrc` depends on the order of the bytes: exchanging two adjacent, distinct
bytes anywhere in a byte sequence changes the checksum. -/
theorem ModbusCrc_swap_adjacent_ne (p s : List Byte) (x y : Byte) (hxy : x ≠ y) :
    ModbusCrc (p ++ [x, y] ++ s) ≠ ModbusCrc (p ++ [y, x] ++ s) := by
  intro h
  have h1 := ModbusCrc_inj h
  have hp : p.foldl crcByte 0xFFFF < 65536 := foldl_crcByte_lt p (by decide)
  simp only [crcLoop, List.foldl_append, List.foldl_cons, List.foldl_nil] at h1
  have h2 := foldl_crcByte_inj s (crcByte_lt y (crcByte_lt x hp))
    (crcByte_lt x (crcByte_lt y hp)) h1
  exact hxy (crcByte_crcByte_comm hp x y h2)

set_option maxRecDepth 100000 in
/-- Witness of C12: the bytes 48 and 0 between the prefix `251` and the suffix `0`. -/
theorem ModbusCrc_swap_adjacent_ne_witness :
    (48 : Byte) ≠ 0 ∧
    ModbusCrc ([251] ++ [48, 0] ++ [0]) ≠ ModbusCrc ([251] ++ [0, 48] ++ [0]) :=
  ⟨by decide, ModbusCrc_swap_adjacent_ne [251] [0] 48 0 (by decide)⟩

set_option maxRecDepth 100000 in
/-- C13. `ModbusCrc` of the empty byte sequence is the byte swap of the initial value
`0xFFFF`, which is `0xFFFF`. -/
theorem ModbusCrc_nil :
    crcLoop [] = 0xFFFF ∧
    ModbusCrc [] = ((0xFFFF <<< 8) % 65536) ||| (0xFFFF >>> 8) ∧
    ModbusCrc [] = 0xFFFF := by
  decide

set_option maxRecDepth 100000 in
/-- Counterexample to C14 as stated: the frame of `BasicInfo` with an empty payload is not
8 bytes long. -/
theorem serialize_BasicInfo_length_ne_eight :
    (serialize DeviceAddress BasicInfo []).1.length ≠ 8 := by
  decide

set_option maxRecDepth 100000 in
/-- C14, amended. With `DeviceAddress = 251`, the byte sequence returned by `serialize` for
`BasicInfo` with an empty payload is 6 bytes long: four header bytes and two checksum
bytes. -/
theorem serialize_BasicInfo_length :
    (serialize DeviceAddress BasicInfo []).1.length = 6 := by
  decide

set_option maxRecDepth 100000 in
/-- C15, on the code. `deserialize` writes to standard output on every input: run on any
buffer from any state of the output streams, it returns the error of `deserialize`, has
appended the one text `buff=` followed by the bytes of the buffer to standard output, has
left standard error as it was, and so has changed the output; on the accepted buffer
`251, 48, 0, 0, 49, 15`, from empty streams, it returns no error and standard output holds
the line `buff=[251 48 0 0 49 15]`. -/
theorem deserializeRun_writes (buff : List Byte) (out : Output) :
    (deserializeRun buff out).1 = deserialize buff ∧
    (deserializeRun buff out).2.stdout =
      out.stdout ++ ["buff=" ++ formatBytes buff ++ "\n"] ∧
    (deserializeRun buff out).2.stderr = out.stderr ∧
    (deserializeRun buff out).2 ≠ out ∧
    deserializeRun [251, 48, 0, 0, 49, 15] (Output.mk [] []) =
      (none, Output.mk ["buff=[251 48 0 0 49 15]\n"] []) := by
  have hout : (deserializeRun buff out).2 =
      Output.mk (out.stdout ++ ["buff=" ++ formatBytes buff ++ "\n"]) out.stderr := by
    unfold deserializeRun
    simp only []
    split
    · rfl
    · split
      · rfl
      · split <;> rfl
  refine ⟨?_, ?_, ?_, ?_, by decide⟩
  · unfold deserializeRun deserialize
    simp only []
    split
    · rfl
    · split
      · rfl
      · split <;> rfl
  · rw [hout]
  · rw [hout]
  · rw [hout]
    intro h
    have hl := congrArg (fun o => o.stdout.length) h
    simp at hl

/-- C16. Integrity of accepted frames: when `deserialize` accepts a buffer `b` with length
byte `L = b[3]`, inverting one bit of the address, command or sequence byte or of one of the
`L` payload bytes, the length byte, the two checksum bytes and all trailing bytes being left
as they are, gives a buffer on which `deserialize` returns the crc error. -/
theorem deserialize_flipBit_accepted (b : List Byte) (i : Nat)
    (hacc : deserialize b = none)
    (hi : i < 8 * (4 + (b.getD 3 0).val)) (h3 : i / 8 ≠ 3) :
    deserialize (flipBit b i) =
      some (Error.crc
        ((b.getD (4 + (b.getD 3 0).val) 0).val * 256 + (b.getD (5 + (b.getD 3 0).val) 0).val)
        (ModbusCrc (flipBit (b.take (4 + (b.getD 3 0).val)) i))) := by
  have hlen := deserialize_none_length b hacc
  have hcrc := deserialize_none_crc b hacc
  have hL : (flipBit b i).getD 3 0 = b.getD 3 0 := getD_flipBit_of_ne b i 3 h3
  have hx : (flipBit b i).getD (4 + (b.getD 3 0).val) 0 = b.getD (4 + (b.getD 3 0).val) 0 :=
    getD_flipBit_of_ne b i _ (by omega)
  have hy : (flipBit b i).getD (5 + (b.getD 3 0).val) 0 = b.getD (5 + (b.getD 3 0).val) 0 :=
    getD_flipBit_of_ne b i _ (by omega)
  have htake : (b.take (4 + (b.getD 3 0).val)).length = 4 + (b.getD 3 0).val := by
    rw [List.length_take]; omega
  have hne : ModbusCrc (flipBit (b.take (4 + (b.getD 3 0).val)) i) ≠
      (b.getD (4 + (b.getD 3 0).val) 0).val * 256 + (b.getD (5 + (b.getD 3 0).val) 0).val := by
    rw [← hcrc]
    exact ModbusCrc_flipBit_ne _ (by rw [htake]; exact hi)
  rw [deserialize_of_le (flipBit b i) (by rw [hL, length_flipBit]; exact hlen), hL, hx, hy,
    take_flipBit b i _ (by omega), if_pos hne]

set_option maxRecDepth 100000 in
/-- Witness of C16: the accepted buffer `251, 48, 0, 0, 49, 15` with bit 5 of its address
byte inverted. -/
theorem deserialize_flipBit_accepted_witness :
    deserialize [251, 48, 0, 0, 49, 15] = none ∧
    5 < 8 * (4 + (([251, 48, 0, 0, 49, 15] : List Byte).getD 3 0).val) ∧ 5 / 8 ≠ 3 ∧
    deserialize (flipBit [251, 48, 0, 0, 49, 15] 5) =
      some (Error.crc
        ((([251, 48, 0, 0, 49, 15] : List Byte).getD
            (4 + (([251, 48, 0, 0, 49, 15] : List Byte).getD 3 0).val) 0).val * 256 +
          (([251, 48, 0, 0, 49, 15] : List Byte).getD
            (5 + (([251, 48, 0, 0, 49, 15] : List Byte).getD 3 0).val) 0).val)
        (ModbusCrc (flipBit (([251, 48, 0, 0, 49, 15] : List Byte).take
          (4 + (([251, 48, 0, 0, 49, 15] : List Byte).getD 3 0).val)) 5))) :=
  ⟨by decide, by decide, by decide,
   deserialize_flipBit_accepted [251, 48, 0, 0, 49, 15] 5 (by decide) (by decide) (by decide)⟩

/-- C17. Exact condition for the encoder and the decoder to agree: for a payload of at most
255 bytes, with `body = [DeviceAddress, cmd, 0, len(payload)] ++ payload`, `deserialize`
accepts `serialize(cmd, payload)` if and only if the high byte and the low byte of
`ModbusCrc(body)` are equal; otherwise it returns the crc error, the received value being
the checksum with its two bytes exchanged. -/
theorem deserialize_serialize_iff (addr : Byte) (cmd : CommandID) (payload : List Byte)
    (h : payload.length ≤ 255) :
    (deserialize (serialize addr cmd payload).1 = none ↔
      ModbusCrc ([addr, cmd, 0, uint8 payload.length] ++ payload) / 256 =
        ModbusCrc ([addr, cmd, 0, uint8 payload.length] ++ payload) % 256) ∧
    (ModbusCrc ([addr, cmd, 0, uint8 payload.length] ++ payload) / 256 ≠
        ModbusCrc ([addr, cmd, 0, uint8 payload.length] ++ payload) % 256 →
      deserialize (serialize addr cmd payload).1 =
        some (Error.crc
          (ModbusCrc ([addr, cmd, 0, uint8 payload.length] ++ payload) % 256 * 256 +
            ModbusCrc ([addr, cmd, 0, uint8 payload.length] ++ payload) / 256)
          (ModbusCrc ([addr, cmd, 0, uint8 payload.length] ++ payload)))) := by
  have hM := ModbusCrc_lt (frameBody addr cmd payload)
  have hd := deserialize_serialize_eq addr cmd payload h
  have hb : frameBody addr cmd payload = [addr, cmd, 0, uint8 payload.length] ++ payload := rfl
  rw [hb] at hM hd
  rw [hd]
  constructor
  · constructor
    · intro h0
      by_contra hne
      rw [if_pos (by omega)] at h0
      exact Option.noConfusion h0
    · intro heq
      rw [if_neg (by omega)]
  · intro hne
    rw [if_pos (by omega)]

set_option maxRecDepth 100000 in
/-- Witness of C17: for `BasicInfo` with an empty payload the checksum `0x310F` has unequal
bytes and the frame is refused; for command 1 with payload `94` the two bytes are equal
and the frame is accepted. -/
theorem deserialize_serialize_iff_witness :
    ([] : List Byte).length ≤ 255 ∧
    deserialize (serialize DeviceAddress BasicInfo []).1 =
      some (Error.crc
        (ModbusCrc ([DeviceAddress, BasicInfo, 0, uint8 ([] : List Byte).length] ++ []) % 256 * 256 +
          ModbusCrc ([DeviceAddress, BasicInfo, 0, uint8 ([] : List Byte).length] ++ []) / 256)
        (ModbusCrc ([DeviceAddress, BasicInfo, 0, uint8 ([] : List Byte).length] ++ []))) ∧
    deserialize (serialize DeviceAddress 1 [94]).1 = none :=
  ⟨by decide,
   (deserialize_serialize_iff DeviceAddress BasicInfo [] (by decide)).2 (by decide),
   (deserialize_serialize_iff DeviceAddress 1 [94] (by decide)).1.mpr (by decide)⟩

set_option maxRecDepth 100000 in
/-- C18. The decoder accepts the encoder's frame with its two checksum bytes exchanged: for
a payload of at most 255 bytes, `deserialize` returns no error on `serialize(cmd, payload)`
with its last two bytes swapped; for `BasicInfo` with an empty payload that buffer is
`251, 48, 0, 0, 49, 15`. -/
theorem deserialize_swapLastTwo_serialize (addr : Byte) (cmd : CommandID)
    (payload : List Byte) (h : payload.length ≤ 255) :
    deserialize (swapLastTwo (serialize addr cmd payload).1) = none ∧
    swapLastTwo (serialize DeviceAddress BasicInfo []).1 = [251, 48, 0, 0, 49, 15] ∧
    deserialize [251, 48, 0, 0, 49, 15] = none := by
  refine ⟨?_, by decide, by decide⟩
  have hM := ModbusCrc_lt (frameBody addr cmd payload)
  have hy := uint8_shiftRight_val hM
  have hx : (uint8 (ModbusCrc (frameBody addr cmd payload))).val =
      ModbusCrc (frameBody addr cmd payload) % 256 := rfl
  rw [serialize_fst_eq addr cmd payload h, swapLastTwo_append,
    deserialize_append_trailer _ _ _ (frameBody_header addr cmd payload h), hx, hy,
    if_neg (by omega)]

set_option maxRecDepth 100000 in
/-- Witness of C18: command `BasicSet` with the payload `7, 9`. -/
theorem deserialize_swapLastTwo_serialize_witness :
    ([7, 9] : List Byte).length ≤ 255 ∧
    deserialize (swapLastTwo (serialize DeviceAddress BasicSet [7, 9]).1) = none :=
  ⟨by decide, (deserialize_swapLastTwo_serialize DeviceAddress BasicSet [7, 9] (by decide)).1⟩

/-- C19. Zero residue of accepted frames: when `deserialize` accepts a buffer `b` with
length byte `L = b[3]`, `ModbusCrc` of the whole logical frame, the first `6 + L` bytes of
`b` (header, payload and both checksum bytes), is 0. -/
theorem ModbusCrc_accepted_frame (b : List Byte) (hacc : deserialize b = none) :
    ModbusCrc (b.take (6 + (b.getD 3 0).val)) = 0 := by
  have hlen := deserialize_none_length b hacc
  have hcrc := deserialize_none_crc b hacc
  have hx := (b.getD (4 + (b.getD 3 0).val) 0).isLt
  have hy := (b.getD (5 + (b.getD 3 0).val) 0).isLt
  have hY := crcLoop_lt (b.take (4 + (b.getD 3 0).val))
  rw [ModbusCrc_eq] at hcrc
  have e5 : 4 + (b.getD 3 0).val + 1 = 5 + (b.getD 3 0).val := by omega
  have hz : crcLoop (b.take (6 + (b.getD 3 0).val)) = 0 := by
    rw [(by omega : 6 + (b.getD 3 0).val = 4 + (b.getD 3 0).val + 2),
      take_add_two b _ (by omega), e5]
    exact crcLoop_append_trailer _ _ _ (by omega) (by omega)
  rw [ModbusCrc_eq, hz]

set_option maxRecDepth 100000 in
/-- Witness of C19: the accepted buffer `251, 48, 0, 0, 49, 15` followed by two more
bytes. -/
theorem ModbusCrc_accepted_frame_witness :
    deserialize [251, 48, 0, 0, 49, 15, 7, 9] = none ∧
    ModbusCrc (([251, 48, 0, 0, 49, 15, 7, 9] : List Byte).take
      (6 + (([251, 48, 0, 0, 49, 15, 7, 9] : List Byte).getD 3 0).val)) = 0 :=
  ⟨by decide, ModbusCrc_accepted_frame [251, 48, 0, 0, 49, 15, 7, 9] (by decide)⟩

/-- C20. The encoding is unambiguous: for one device address, two commands and two payloads
of at most 255 bytes with the same `serialize` result are the same command and the same
payload. -/
theorem serialize_injective (addr : Byte) (cmd1 cmd2 : CommandID) (p1 p2 : List Byte)
    (h1 : p1.length ≤ 255) (h2 : p2.length ≤ 255)
    (heq : serialize addr cmd1 p1 = serialize addr cmd2 p2) :
    cmd1 = cmd2 ∧ p1 = p2 := by
  have hf : (serialize addr cmd1 p1).1 = (serialize addr cmd2 p2).1 := by rw [heq]
  rw [serialize_fst_eq addr cmd1 p1 h1, serialize_fst_eq addr cmd2 p2 h2] at hf
  have hlen := congrArg List.length hf
  simp only [List.length_append, length_frameBody, List.length_cons, List.length_nil] at hlen
  have hb : frameBody addr cmd1 p1 = frameBody addr cmd2 p2 :=
    (List.append_inj hf (by rw [length_frameBody, length_frameBody]; omega)).1
  simp only [frameBody, List.cons_append, List.nil_append, List.cons.injEq, true_and] at hb
  exact ⟨hb.1, hb.2.2⟩

set_option maxRecDepth 100000 in
/-- Witness of C20: command `BasicSet` with payload `7, 9` against itself. -/
theorem serialize_injective_witness :
    ([7, 9] : List Byte).length ≤ 255 ∧
    serialize DeviceAddress BasicSet [7, 9] = serialize DeviceAddress BasicSet [7, 9] ∧
    BasicSet = BasicSet ∧ ([7, 9] : List Byte) = [7, 9] :=
  ⟨by decide, rfl,
   serialize_injective DeviceAddress BasicSet BasicSet [7, 9] [7, 9]
    (by decide) (by decide) rfl⟩

end DP100
